import Mathlib

/-!
Verification development for the lepton wallet library (Railgun).

The definitions below are a shallow embedding of the TypeScript sources:
the prover adapter (`Prover`), the bech32 address codec, the ERC-20
transaction builder (`ERC20Transaction.generateInputs`) and the wallet
scanner (`Wallet.scanIndex` / `scanLeaves` / `scan`).  External
primitives that live outside the embedded modules (sha256, Poseidon,
Baby-Jubjub operations, AES, the Groth16 prover/verifier, randomness)
are threaded as explicit oracle parameters; byte strings (`BytesData`)
are modelled as big-endian byte lists, and `bn.js` big numbers as `Int`
(amounts, which may go negative under subtraction) or `Nat`.
-/

/-- Byte strings (the library's `BytesData`), big-endian byte lists. -/
abbrev Bytes := List Nat

/-- Modelled from the spec: `bytes.numberify` interprets a byte string as a
big-endian non-negative integer. -/
def numberify (d : Bytes) : Nat :=
  d.foldl (fun acc b => acc * 256 + b) 0

/-- Modelled from the spec: `bytes.padToLength` left-pads a byte string with
zero bytes to the requested length (`padTo32` in the spec). -/
def padToLength (d : Bytes) (n : Nat) : Bytes :=
  List.replicate (n - d.length) 0 ++ d

/-- Modelled from the spec: `bytes.combine` concatenates byte strings. -/
def combine (l : List Bytes) : Bytes := l.flatten

/-- The SNARK scalar-field prime from `constants.ts`. -/
def SNARK_PRIME : Nat :=
  21888242871839275222246405745257275088548364400416034343698204186575808495617

/-- The address version constant from `constants.ts`. -/
def VERSION : Nat := 1

/-! ### Prover adapter (`prover/index.ts`) -/

/-- The two compiled circuits the prover adapter drives. -/
inductive Circuits where
  | erc20small
  | erc20large
deriving DecidableEq

/-- Raw Groth16 proof as returned by `groth16.prove` / consumed by
`groth16.verify` (`pi_a`, `pi_b`, `pi_c`, numbers in prover-native order). -/
structure RawProof where
  piA : Nat × Nat
  piB : (Nat × Nat) × (Nat × Nat)
  piC : Nat × Nat
deriving DecidableEq

/-- The adapter's stored proof format (`Proof` type: `a`, `b`, `c`). -/
structure ProofE where
  a : Nat × Nat
  b : (Nat × Nat) × (Nat × Nat)
  c : Nat × Nat
deriving DecidableEq

/-- Proof formatting done by `Prover.prove` (lines 124-131): `b` is stored
with each inner coordinate pair swapped. -/
def formatProofFromRaw (p : RawProof) : ProofE :=
  { a := p.piA
    b := ((p.piB.1.2, p.piB.1.1), (p.piB.2.2, p.piB.2.1))
    c := p.piC }

/-- Proof re-formatting done by `Prover.verify` (lines 90-97): the inner
pairs of `b` are swapped again before the Groth16 verifier call. -/
def formatProofForVerify (p : ProofE) : RawProof :=
  { piA := p.a
    piB := ((p.b.1.2, p.b.1.1), (p.b.2.2, p.b.2.1))
    piC := p.c }

/-- `ERC20PublicInputs` of the prover adapter. -/
structure ERC20PublicInputsE where
  adaptID : Bytes
  depositAmount : Bytes
  withdrawAmount : Bytes
  outputTokenField : Bytes
  outputEthAddress : Bytes
  treeNumber : Bytes
  merkleRoot : Bytes
  nullifiers : List Bytes
  commitmentsOut : List Bytes
  ciphertextHash : Bytes
deriving DecidableEq

/-- `ERC20PrivateInputs` of the prover adapter. -/
structure ERC20PrivateInputsE where
  adaptID : Bytes
  tokenField : Bytes
  depositAmount : Bytes
  withdrawAmount : Bytes
  outputTokenField : Bytes
  outputEthAddress : Bytes
  randomIn : List Bytes
  valuesIn : List Bytes
  spendingKeys : List Bytes
  treeNumber : Bytes
  merkleRoot : Bytes
  nullifiers : List Bytes
  pathElements : List (List Bytes)
  pathIndices : List Bytes
  recipientPK : List Bytes
  randomOut : List Bytes
  valuesOut : List Bytes
  commitmentsOut : List Bytes
  ciphertextHash : Bytes
deriving DecidableEq

/-- `Prover.hashInputs`: sha256 over the 32-byte-padded concatenation of the
public inputs, reduced modulo the SNARK prime.  `sha256` is the external
hash primitive, passed in as an oracle. -/
def Prover.hashInputs (sha256 : Bytes → Bytes) (inputs : ERC20PublicInputsE) : Nat :=
  let preimage := combine
    (([inputs.adaptID,
       inputs.depositAmount,
       inputs.withdrawAmount,
       inputs.outputTokenField,
       inputs.outputEthAddress,
       inputs.treeNumber,
       inputs.merkleRoot]
      ++ inputs.nullifiers
      ++ inputs.commitmentsOut
      ++ [inputs.ciphertextHash]).map (fun el => padToLength el 32))
  numberify (sha256 preimage) % SNARK_PRIME

/-- The public-input hash exactly as §4.G of the spec words it:
`sha256( padTo32(adaptID) || padTo32(depositAmount) || padTo32(withdrawAmount)
|| padTo32(outputTokenField) || padTo32(outputEthAddress) || padTo32(treeNumber)
|| padTo32(merkleRoot) || nullifiers (each padTo32) || commitmentsOut (each
padTo32) || padTo32(ciphertextHash) ) mod p`. -/
def hashOfInputsSpec (sha256 : Bytes → Bytes) (inputs : ERC20PublicInputsE) : Nat :=
  numberify (sha256
    (padToLength inputs.adaptID 32
      ++ padToLength inputs.depositAmount 32
      ++ padToLength inputs.withdrawAmount 32
      ++ padToLength inputs.outputTokenField 32
      ++ padToLength inputs.outputEthAddress 32
      ++ padToLength inputs.treeNumber 32
      ++ padToLength inputs.merkleRoot 32
      ++ (inputs.nullifiers.map (fun el => padToLength el 32)).flatten
      ++ (inputs.commitmentsOut.map (fun el => padToLength el 32)).flatten
      ++ padToLength inputs.ciphertextHash 32)) % SNARK_PRIME

/-- `Prover.privateToPublicInputs` (lines 167-184). -/
def Prover.privateToPublicInputs (inputs : ERC20PrivateInputsE) : ERC20PublicInputsE :=
  { adaptID := inputs.adaptID
    depositAmount := inputs.depositAmount
    withdrawAmount := inputs.withdrawAmount
    outputTokenField := inputs.outputTokenField
    outputEthAddress := inputs.outputEthAddress
    treeNumber := inputs.treeNumber
    merkleRoot := inputs.merkleRoot
    nullifiers := inputs.nullifiers
    commitmentsOut := inputs.commitmentsOut
    ciphertextHash := inputs.ciphertextHash }

/-- External collaborators of the prover adapter: the artifacts store
(verifying keys, abstracted to `Nat` identifiers), the Groth16 verifier and
sha256. -/
structure ProverEnv where
  sha256 : Bytes → Bytes
  vkeyOf : Circuits → Nat
  groth16Verify : Nat → List Nat → RawProof → Bool

/-- `Prover.verify` (lines 82-101): re-derive the inputs hash, re-format the
proof (un-swapping `b`) and call the Groth16 verifier on
`[hashOfInputs]`. -/
def Prover.verify (env : ProverEnv) (circuit : Circuits)
    (inputs : ERC20PublicInputsE) (proof : ProofE) : Bool :=
  env.groth16Verify (env.vkeyOf circuit)
    [Prover.hashInputs env.sha256 inputs]
    (formatProofForVerify proof)

/-- Error raised by the prover adapter. -/
inductive ProverError where
  | proofGenFailed
deriving DecidableEq

/-- `Prover.prove` (lines 103-141).  The Groth16 prover is external: its raw
output for this witness is passed in as `raw`.  The raw proof is re-formatted
(swapping the inner pairs of `b`), self-verified against the public inputs
derived from the private inputs, and returned; `ProofGenFailed` is raised if
the self-verification fails. -/
def Prover.prove (env : ProverEnv) (circuit : Circuits)
    (inputs : ERC20PrivateInputsE) (raw : RawProof) :
    Except ProverError (ProofE × ERC20PublicInputsE) :=
  let publicInputs := Prover.privateToPublicInputs inputs
  let proofFormatted := formatProofFromRaw raw
  if Prover.verify env circuit publicInputs proofFormatted then
    .ok (proofFormatted, publicInputs)
  else
    .error .proofGenFailed

/-- C2: `Prover.hashInputs` equals the spec's `hashOfInputs`: sha256 of the
in-order 32-byte-padded concatenation of adaptID, depositAmount,
withdrawAmount, outputTokenField, outputEthAddress, treeNumber, merkleRoot,
the nullifiers, the output commitments and ciphertextHash, reduced modulo the
SNARK prime. -/
theorem hashInputs_matches_spec (sha256 : Bytes → Bytes) (inputs : ERC20PublicInputsE) :
    Prover.hashInputs sha256 inputs = hashOfInputsSpec sha256 inputs := by
  simp [Prover.hashInputs, hashOfInputsSpec, combine, List.map_append,
    List.flatten_append, List.append_assoc]

/-- C4: the proof-element reordering round-trips: `prove` stores `b` with each
inner coordinate pair swapped, `verify` swaps again, so the proof handed to
the underlying Groth16 verifier equals the prover-native raw proof. -/
theorem proof_b_swap_round_trips (raw : RawProof) :
    formatProofForVerify (formatProofFromRaw raw) = raw := by
  cases raw with
  | mk a b c => rfl

/-- C1: whenever `Prover.prove` returns a proof, that proof verifies under
`Prover.verify` against the public inputs derived from the private inputs;
and if the internally re-run verification fails, `prove` returns the
proof-generation failure instead of a proof. -/
theorem prove_self_verifies (env : ProverEnv) (circuit : Circuits)
    (inputs : ERC20PrivateInputsE) (raw : RawProof) :
    (∀ pr pub, Prover.prove env circuit inputs raw = .ok (pr, pub) →
      pub = Prover.privateToPublicInputs inputs ∧
      Prover.verify env circuit pub pr = true) ∧
    (Prover.verify env circuit (Prover.privateToPublicInputs inputs)
        (formatProofFromRaw raw) = false →
      Prover.prove env circuit inputs raw = .error .proofGenFailed) := by
  constructor
  · intro pr pub hok
    unfold Prover.prove at hok
    by_cases hv : Prover.verify env circuit (Prover.privateToPublicInputs inputs)
        (formatProofFromRaw raw) = true
    · simp only [hv, if_true] at hok
      obtain ⟨h1, h2⟩ := Prod.mk.injEq _ _ _ _ ▸ Except.ok.injEq _ _ ▸ hok
      subst h2
      exact ⟨rfl, h1 ▸ hv⟩
    · simp only [Bool.not_eq_true] at hv
      simp [hv] at hok
  · intro hv
    unfold Prover.prove
    simp [hv]

/-- Concrete prover environment used to witness `prove_self_verifies`. -/
def proverEnvW : ProverEnv :=
  { sha256 := fun _ => List.replicate 32 0
    vkeyOf := fun _ => 0
    groth16Verify := fun _ _ _ => true }

/-- Concrete private inputs used to witness `prove_self_verifies`. -/
def privInputsW : ERC20PrivateInputsE :=
  { adaptID := [0], tokenField := [0], depositAmount := [0], withdrawAmount := [0]
    outputTokenField := [0], outputEthAddress := [0]
    randomIn := [[1], [2]], valuesIn := [[1], [2]], spendingKeys := [[1], [2]]
    treeNumber := [0], merkleRoot := [3]
    nullifiers := [[4], [5]]
    pathElements := [[[0]], [[0]]], pathIndices := [[0], [1]]
    recipientPK := [[6], [7], [8]], randomOut := [[1], [2], [3]]
    valuesOut := [[1], [2], [0]], commitmentsOut := [[9], [10], [11]]
    ciphertextHash := [12] }

/-- Concrete raw Groth16 proof used to witness `prove_self_verifies`. -/
def rawProofW : RawProof :=
  { piA := (1, 2), piB := ((3, 4), (5, 6)), piC := (7, 8) }

/-- Witness for C1: at a concrete environment where the Groth16 verifier
accepts, `prove` succeeds and the returned proof verifies. -/
theorem prove_self_verifies_witness :
    Prover.privateToPublicInputs privInputsW = Prover.privateToPublicInputs privInputsW ∧
    Prover.verify proverEnvW Circuits.erc20small
      (Prover.privateToPublicInputs privInputsW) (formatProofFromRaw rawProofW) = true :=
  (prove_self_verifies proverEnvW Circuits.erc20small privInputsW rawProofW).1
    (formatProofFromRaw rawProofW) (Prover.privateToPublicInputs privInputsW) rfl

/-! ### Address codec (`keyderivation/bech32-encode.ts`) -/

/-- The sparse `prefixes` array: chain ID to HRP. -/
def hrpTable : List (Nat × String) :=
  [(1, "rgeth"), (3, "rgtestropsten"), (5, "rgtestgoerli"), (56, "rgbsc"), (137, "rgpoly")]

/-- HRP for a chain ID: `chainID && prefixes[chainID]` — a missing, zero or
unknown chain ID falls back to `rgany` (JavaScript falsy test on `chainID`). -/
def hrpFor (chainID : Option Nat) : String :=
  match chainID with
  | none => "rgany"
  | some c =>
    if c = 0 then "rgany"
    else
      match (hrpTable.find? (fun pr => pr.1 == c)).map (fun pr => pr.2) with
      | some p => p
      | none => "rgany"

/-- Reverse lookup used by `decode`: `prefixes.includes` / `indexOf`. -/
def hrpToChain (p : String) : Option Nat :=
  (hrpTable.find? (fun pr => pr.2 == p)).map (fun pr => pr.1)

/-- Errors of the address codec. -/
inductive AddrError where
  | wrongVersion
  | unknownHrp
  | bech32Failure
deriving DecidableEq

/-- `encode` (bech32-encode.ts lines 243-256): bech32-encode the version byte
followed by the packed public key, under the HRP chosen from the chain ID.
The bech32 transport itself (library `bech32-buffer`) is external and passed
in as `b32enc` into an abstract wire type `W`. -/
def encodeAddress {W : Type} (b32enc : String → Bytes → W)
    (pubkey : Bytes) (chainID : Option Nat) : W :=
  b32enc (hrpFor chainID) (VERSION :: pubkey)

/-- `decode` (bech32-encode.ts lines 258-292): bech32-decode, check the
version byte, then dispatch on the HRP — a known HRP yields its chain ID,
`rgany` yields no chain ID, anything else is rejected. -/
def decodeAddress {W : Type} (b32dec : W → Option (String × Bytes))
    (addr : W) : Except AddrError (Option Nat × Bytes) :=
  match b32dec addr with
  | none => .error .bech32Failure
  | some (hrp, data) =>
    if numberify (data.take 1) ≠ VERSION then .error .wrongVersion
    else
      match hrpToChain hrp with
      | some c => .ok (some c, data.drop 1)
      | none =>
        if hrp = "rgany" then .ok (none, data.drop 1)
        else .error .unknownHrp

/-- C5: decoding the encoding round-trips.  For a chain ID with a known HRP
(1, 3, 5, 56, 137) both the public key and the chain ID come back; for an
unknown or absent chain ID the address is encoded under `rgany` and decodes
to the public key with no chain ID.  The external bech32 transport is assumed
to round-trip. -/
theorem address_round_trip {W : Type} (b32enc : String → Bytes → W)
    (b32dec : W → Option (String × Bytes))
    (hb32 : ∀ p d, b32dec (b32enc p d) = some (p, d))
    (pubkey : Bytes) (chainID : Option Nat) :
    decodeAddress b32dec (encodeAddress b32enc pubkey chainID) =
      .ok ((match chainID with
            | some c => if c = 1 ∨ c = 3 ∨ c = 5 ∨ c = 56 ∨ c = 137 then some c else none
            | none => none), pubkey) := by
  unfold decodeAddress encodeAddress
  rw [hb32]
  match chainID with
  | none => simp [hrpFor, hrpToChain, hrpTable, numberify, VERSION]
  | some c =>
    by_cases hc : c = 1 ∨ c = 3 ∨ c = 5 ∨ c = 56 ∨ c = 137
    · rcases hc with h | h | h | h | h <;> subst h <;>
        simp [hrpFor, hrpToChain, hrpTable, numberify, VERSION]
    · push_neg at hc
      obtain ⟨h1, h3, h5, h56, h137⟩ := hc
      by_cases h0 : c = 0
      · subst h0
        simp [hrpFor, hrpToChain, hrpTable, numberify, VERSION]
      · have e1 : (1 == c) = false := beq_eq_false_iff_ne.mpr (Ne.symm h1)
        have e3 : (3 == c) = false := beq_eq_false_iff_ne.mpr (Ne.symm h3)
        have e5 : (5 == c) = false := beq_eq_false_iff_ne.mpr (Ne.symm h5)
        have e56 : (56 == c) = false := beq_eq_false_iff_ne.mpr (Ne.symm h56)
        have e137 : (137 == c) = false := beq_eq_false_iff_ne.mpr (Ne.symm h137)
        simp [hrpFor, hrpToChain, hrpTable, numberify, VERSION, List.find?,
          h0, e1, e3, e5, e56, e137, h1, h3, h5, h56, h137]

/-- Witness for C5: a concrete round-trip through a trivially invertible
transport, with chain ID 1 (`rgeth`) and with an unknown chain ID 42. -/
theorem address_round_trip_witness :
    decodeAddress (W := String × Bytes) some
        (encodeAddress Prod.mk [0, 0, 0, 0] (some 1)) = .ok (some 1, [0, 0, 0, 0]) ∧
    decodeAddress (W := String × Bytes) some
        (encodeAddress Prod.mk [7, 9] (some 42)) = .ok (none, [7, 9]) := by
  constructor
  · have h := address_round_trip (W := String × Bytes) Prod.mk some
      (fun _ _ => rfl) [0, 0, 0, 0] (some 1)
    simpa using h
  · have h := address_round_trip (W := String × Bytes) Prod.mk some
      (fun _ _ => rfl) [7, 9] (some 42)
    simpa using h

/-! ### Transaction builder (`transaction/erc20.ts`) -/

/-- An ERC-20 note (`ERC20Note`): packed recipient pubkey, per-note nonce,
amount and token, with pubkey/random/token abstracted to numeric values and
the amount as a `bn.js`-style signed integer. -/
structure NoteE where
  pubkey : Nat
  random : Nat
  amount : Int
  token : Nat
deriving DecidableEq, Inhabited

/-- A wallet TXO as consumed by the builder (`TXO` type of `wallet/index.ts`,
with `dummyKey` present exactly on dummy notes). -/
structure TXOe where
  tree : Nat
  position : Nat
  index : Nat
  change : Bool
  dummyKey : Option Nat
  note : NoteE
deriving DecidableEq, Inhabited

/-- One entry of `balancesByTree[token]`: a tree's balance plus its UTXOs. -/
structure TreeBalance where
  balance : Int
  utxos : List TXOe
deriving DecidableEq, Inhabited

/-- `NOTE_INPUTS.small`. -/
def NOTE_INPUTS_small : Nat := 2

/-- `NOTE_INPUTS.large`. -/
def NOTE_INPUTS_large : Nat := 10

/-- `NOTE_OUTPUTS`. -/
def NOTE_OUTPUTS : Nat := 3

/-- Modelled from the spec: `depths.erc20`, the fixed ERC-20 Merkle tree depth
(`D_erc20`, e.g. 16); the `merkletree` module itself is not part of the
embedded sources and only the length of the dummy path matters here. -/
def depths_erc20 : Nat := 16

/-- External collaborators of the transaction builder: wallet key derivation,
the Merkle tree mirror, note hashing/encryption primitives and the
randomness drawn at each site (deterministically indexed by draw site). -/
structure TxEnv where
  keypairPub : Nat → Bool → Nat
  keypairPriv : Nat → Bool → Nat
  getProofElements : Nat → Nat → List Nat
  getRoot : Nat → Nat
  nullifierOf : Nat → Nat → Nat → Nat
  noteHash : NoteE → Nat
  privToPub : Nat → Nat
  dummyInKey : Nat → Nat → Nat
  dummyInRandom : Nat → Nat → Nat
  changeRandom : Nat
  dummyOutKey : Nat → Nat
  dummyOutRandom : Nat → Nat
  senderPriv : Nat → Nat
  ecdh : Nat → Nat → Nat
  encryptNote : NoteE → Nat → Bytes × List Bytes
  viewKey : Nat
  aesEncrypt : Nat → List Nat → Nat → Bytes × List Bytes
  sha256 : Bytes → Bytes
  unpackPoint : Nat → Bytes × Bytes

/-- The `ERC20Transaction` object state at the time `generateInputs` runs. -/
structure ERC20TransactionE where
  adaptContract : Bytes
  adaptParameters : Bytes
  chainID : Nat
  token : Nat
  outputs : List NoteE
  deposit : Int
  withdraw : Int
  withdrawAddress : Option Nat
  treePin : Option Nat
deriving Inhabited

/-- Errors raised by `generateInputs`; `typeError` stands for the JavaScript
`TypeError` of an out-of-bounds array access. -/
inductive TxError where
  | tooManyOutputs
  | tokenMismatch
  | insufficientBalance
  | typeError
  | needsConsolidation
  | withdrawAddressNotSet
  | withdrawShouldNotBeSet
deriving DecidableEq, Inhabited

/-- Descending insertion step of the UTXO sort comparator (larger amounts
first, ties keep order). -/
def insertDescByAmount (x : TXOe) : List TXOe → List TXOe
  | [] => [x]
  | y :: ys => if y.note.amount < x.note.amount then x :: y :: ys else y :: insertDescByAmount x ys

/-- The in-place `treeBalance.utxos.sort(...)` (descending by amount). -/
def sortDescByAmount (l : List TXOe) : List TXOe := l.foldr insertDescByAmount []

/-- The greedy accumulation loop: push the next-largest UTXO until the
selected sum reaches the target.  `none` models the out-of-bounds access the
source makes when the whole list cannot reach the target. -/
def greedyTake (required : Int) : List TXOe → Option (List TXOe)
  | [] => if required ≤ 0 then some [] else none
  | x :: xs =>
    if required ≤ 0 then some []
    else (greedyTake (required - x.note.amount) xs).map (fun r => x :: r)

/-- A dummy input note pushed by `fillUTXOs`: fresh random key, amount 0,
the transaction's token, position 0. -/
def mkDummyInputTXO (env : TxEnv) (tree slot token : Nat) : TXOe :=
  let k := env.dummyInKey tree slot
  { tree := tree, position := 0, index := 0, change := false, dummyKey := some k
    note := { pubkey := env.privToPub k, random := env.dummyInRandom tree slot
              amount := 0, token := token } }

/-- `fillUTXOs` (lines 189-223): when the tree has fewer UTXOs than the
circuit arity, take them all and pad with dummy notes; otherwise pad the
greedy selection from the smallest end of the sorted list. -/
def fillUTXOs (env : TxEnv) (tree token : Nat) (sorted sel : List TXOe)
    (target : Nat) : List TXOe :=
  if sorted.length < target then
    sorted ++ (List.range (target - sorted.length)).map
      (fun j => mkDummyInputTXO env tree (sorted.length + j) token)
  else
    sel ++ sorted.reverse.take (target - sel.length)

/-- One tree's spending solution (the body of the `solutions` map, lines
154-234): `some []` is "no solution for this tree", `none` is the crash of
the greedy loop running past the end of the UTXO list. -/
def treeSolution (env : TxEnv) (token : Nat) (required : Int) (tree : Nat)
    (tb : TreeBalance) : Option (List TXOe) :=
  if tb.balance < required then some []
  else
    let sorted := sortDescByAmount tb.utxos
    match greedyTake required sorted with
    | none => none
    | some sel =>
      if sel.length ≤ NOTE_INPUTS_small then
        some (fillUTXOs env tree token sorted sel NOTE_INPUTS_small)
      else if sel.length ≤ NOTE_INPUTS_large then
        some (fillUTXOs env tree token sorted sel NOTE_INPUTS_large)
      else some []

/-- The `solutions` array: one (possibly crashed) solution per tree. -/
def solutionsFor (env : TxEnv) (token : Nat) (required : Int) :
    Nat → List TreeBalance → List (Option (List TXOe))
  | _, [] => []
  | t, tb :: rest =>
    treeSolution env token required t tb :: solutionsFor env token required (t + 1) rest

/-- `solutions.findIndex((value) => value.length > 0)`. -/
def firstSolIdx : List (List TXOe) → Option Nat
  | [] => none
  | s :: rest => if s ≠ [] then some 0 else (firstSolIdx rest).map (fun i => i + 1)

/-- `const tree = this.tree || solutions.findIndex(...)`: a pinned tree is
used only when JavaScript-truthy (set and nonzero); otherwise the first tree
with a nonempty solution is picked. -/
def chooseTree (treePin : Option Nat) (solutions : List (List TXOe)) : Option Nat :=
  match treePin with
  | some t => if t ≠ 0 then some t else firstSolIdx solutions
  | none => firstSolIdx solutions

/-- `required`: Σ outputs + withdraw − deposit (line 127-131). -/
def requiredOf (tx : ERC20TransactionE) : Int :=
  (tx.outputs.map (fun o => o.amount)).sum + tx.withdraw - tx.deposit

/-- The per-output encryption bundle (lines 321-334): ephemeral sender key,
ECDH shared key, note ciphertext with its 32-byte-padded IV prepended, and
the shared key re-encrypted under the wallet view key. -/
structure CipherBundle where
  senderPubKey : Nat
  ciphertext : List Bytes
  revealKey : List Bytes
deriving DecidableEq, Inhabited

/-- Computes one output's `CipherBundle`; `i` indexes the randomness draw. -/
def cipherBundleFor (env : TxEnv) (i : Nat) (c : NoteE) : CipherBundle :=
  let sPriv := env.senderPriv i
  let shared := env.ecdh sPriv c.pubkey
  let enc := env.encryptNote c shared
  let rk := env.aesEncrypt i [shared] env.viewKey
  { senderPubKey := env.privToPub sPriv
    ciphertext := padToLength enc.1 32 :: enc.2
    revealKey := rk.1 :: rk.2 }

/-- `ciphertextHash` (lines 336-352): sha256 over the 32-byte-padded flat
concatenation of each output's unpacked sender pubkey, ciphertext and reveal
key, reduced modulo the SNARK prime. -/
def ciphertextHashOf (env : TxEnv) (bundles : List CipherBundle) : Nat :=
  numberify (env.sha256 (combine
    ((bundles.map (fun cb =>
        [(env.unpackPoint cb.senderPubKey).1, (env.unpackPoint cb.senderPubKey).2]
          ++ cb.ciphertext ++ cb.revealKey)).flatten.map
      (fun v => padToLength v 32)))) % SNARK_PRIME

/-- `adaptID` witness field (line 356): sha256 of the padded adapt contract
and parameters, reduced modulo the SNARK prime. -/
def adaptIDField (env : TxEnv) (tx : ERC20TransactionE) : Nat :=
  numberify (env.sha256 (combine
    [padToLength tx.adaptContract 32, padToLength tx.adaptParameters 32])) % SNARK_PRIME

/-- Indexed map (the `(commitment, index) =>` callbacks). -/
def mapWithIndex {α β : Type} (f : Nat → α → β) : Nat → List α → List β
  | _, [] => []
  | i, x :: xs => f i x :: mapWithIndex f (i + 1) xs

/-- The `ERC20PrivateInputs` record as assembled by `generateInputs`
(lines 355-375), with field-typed entries held as integers. -/
structure GenInputsResult where
  adaptID : Nat
  tokenField : Nat
  depositAmount : Int
  withdrawAmount : Int
  outputTokenField : Nat
  outputEthAddress : Nat
  randomIn : List Nat
  valuesIn : List Int
  spendingKeys : List Nat
  treeNumber : Nat
  merkleRoot : Nat
  nullifiers : List Nat
  pathElements : List (List Nat)
  pathIndices : List Nat
  recipientPK : List Nat
  randomOut : List Nat
  valuesOut : List Int
  commitmentsOut : List Nat
  ciphertextHash : Nat
deriving DecidableEq, Inhabited

/-- One returned commitment bundle (lines 379-384). -/
structure CommitmentOut where
  hash : Nat
  ciphertext : List Bytes
  senderPubKey : Nat
  revealKey : List Bytes
deriving DecidableEq, Inhabited

/-- The change output (lines 298-306): addressed to the change keypair at
derivation index 0, carrying `totalIn − totalOut` (also when that is 0). -/
def changeNoteOf (env : TxEnv) (tx : ERC20TransactionE) (sol : List TXOe) : NoteE :=
  { pubkey := env.keypairPub 0 true
    random := env.changeRandom
    amount := ((sol.map (fun u => u.note.amount)).sum + tx.deposit) -
      ((tx.outputs.map (fun o => o.amount)).sum + tx.withdraw)
    token := tx.token }

/-- A dummy output note (lines 309-318): throwaway key, amount 0. -/
def dummyOutNote (env : TxEnv) (tx : ERC20TransactionE) (j : Nat) : NoteE :=
  { pubkey := env.privToPub (env.dummyOutKey j)
    random := env.dummyOutRandom j, amount := 0, token := tx.token }

/-- The output commitment notes (lines 296-318): the caller's outputs, then
the change note, padded with dummy notes to `NOTE_OUTPUTS`. -/
def outCommitments (env : TxEnv) (tx : ERC20TransactionE) (sol : List TXOe) : List NoteE :=
  let base := tx.outputs ++ [changeNoteOf env tx sol]
  base ++ (List.range (NOTE_OUTPUTS - base.length)).map (dummyOutNote env tx)

/-- The straight-line tail of `generateInputs` (lines 251-386) once a tree
and its solution are fixed: spending keys, nullifiers, Merkle paths, the
change note, dummy-output padding, ciphertexts and the assembled witness. -/
def buildResult (env : TxEnv) (tx : ERC20TransactionE) (tree : Nat)
    (sol : List TXOe) : GenInputsResult × List CommitmentOut :=
  let spendingKeys := sol.map (fun u => u.dummyKey.getD (env.keypairPriv u.index u.change))
  let nullifiers := sol.map (fun u =>
    env.nullifierOf (u.dummyKey.getD (env.keypairPriv u.index u.change)) tree u.position)
  let pathElements := sol.map (fun u =>
    if u.dummyKey.isSome then List.replicate depths_erc20 0
    else env.getProofElements tree u.position)
  let pathIndices := sol.map (fun u => u.position)
  let commitments := outCommitments env tx sol
  let bundles := mapWithIndex (fun i c => cipherBundleFor env i c) 0 commitments
  ({ adaptID := adaptIDField env tx
     tokenField := tx.token
     depositAmount := tx.deposit
     withdrawAmount := tx.withdraw
     outputTokenField := if 0 < tx.deposit ∨ 0 < tx.withdraw then tx.token else 0
     outputEthAddress := tx.withdrawAddress.getD 0
     randomIn := sol.map (fun u => u.note.random)
     valuesIn := sol.map (fun u => u.note.amount)
     spendingKeys := spendingKeys
     treeNumber := tree
     merkleRoot := env.getRoot tree
     nullifiers := nullifiers
     pathElements := pathElements
     pathIndices := pathIndices
     recipientPK := commitments.map (fun c => c.pubkey)
     randomOut := commitments.map (fun c => c.random)
     valuesOut := commitments.map (fun c => c.amount)
     commitmentsOut := commitments.map env.noteHash
     ciphertextHash := ciphertextHashOf env bundles },
   mapWithIndex (fun i c =>
     { hash := env.noteHash c
       ciphertext := (cipherBundleFor env i c).ciphertext
       senderPubKey := (cipherBundleFor env i c).senderPubKey
       revealKey := (cipherBundleFor env i c).revealKey }) 0 commitments)

/-- `ERC20Transaction.generateInputs` (lines 120-386): precondition checks,
per-tree spending solutions, tree choice, withdraw configuration checks, then
witness assembly.  The wallet's `balancesByTree` entry for the transaction's
token is passed in as `treeSortedBalances`. -/
def ERC20Transaction.generateInputs (env : TxEnv) (tx : ERC20TransactionE)
    (treeSortedBalances : List TreeBalance) :
    Except TxError (GenInputsResult × List CommitmentOut) :=
  if 2 < tx.outputs.length then .error .tooManyOutputs
  else if tx.outputs.any (fun o => o.token ≠ tx.token) then .error .tokenMismatch
  else
    let balance : Int := (treeSortedBalances.map (fun tb => tb.balance)).sum
    if balance < requiredOf tx then .error .insufficientBalance
    else
      let solutionsOpt := solutionsFor env tx.token (requiredOf tx) 0 treeSortedBalances
      if solutionsOpt.any (fun s => s.isNone) then .error .typeError
      else
        let solutions := solutionsOpt.map (fun s => s.getD [])
        match chooseTree tx.treePin solutions with
        | none => .error .needsConsolidation
        | some tree =>
          if 0 < tx.withdraw ∧ tx.withdrawAddress = none then .error .withdrawAddressNotSet
          else if tx.withdraw = 0 ∧ tx.withdrawAddress ≠ none then .error .withdrawShouldNotBeSet
          else
            match solutions.get? tree with
            | none => .error .typeError
            | some sol => .ok (buildResult env tx tree sol)

/-- The circuit routing done by `ERC20Transaction.prove` (line 405): the
small circuit exactly when there are `NOTE_INPUTS.small` nullifiers. -/
def ERC20Transaction.circuitFor (nullifierCount : Nat) : Circuits :=
  if nullifierCount = NOTE_INPUTS_small then .erc20small else .erc20large

/-! ### Wallet scanner (`wallet/index.ts`) -/

/-- Cryptographic failure kinds during scanning (spec §7). -/
inductive CryptoErr where
  | invalidPoint
  | malformedNote
deriving DecidableEq, Inhabited

/-- A commitment on the tree, as handed to the scanner: a cleartext
`GeneratedCommitment` carrying its note, or an `EncryptedCommitment` whose
payload is an abstract ciphertext identifier resolved by the scan
environment. -/
inductive CommitmentE where
  | generated (txid : Nat) (note : NoteE)
  | encrypted (txid : Nat) (cipherId : Nat)
deriving DecidableEq, Inhabited

/-- The TXO record value written by `scanIndex` (lines 278-286). -/
structure TXORecord where
  index : Nat
  change : Bool
  spendtxid : Option Nat
  txid : Nat
  nullifier : Nat
  decrypted : NoteE
deriving DecidableEq, Inhabited

/-- The wallet's key-value store restricted to TXO records, keyed by
`(chainID, tree, position)`. -/
abbrev DBe := List ((Nat × Nat × Nat) × TXORecord)

/-- `put` into the store: replace the value under an existing key in place,
otherwise append. -/
def dbPut (db : DBe) (kv : (Nat × Nat × Nat) × TXORecord) : DBe :=
  match db with
  | [] => [kv]
  | e :: rest => if e.1 = kv.1 then kv :: rest else e :: dbPut rest kv

/-- External collaborators of the scanner: the wallet's derived keypairs, the
nullifier derivation and the decryption of encrypted commitments.
`decryptLeaf` is modelled from the spec: `babyjubjub.ecdh` plus
`ERC20Note.decrypt` live outside the embedded sources and may fail with
`InvalidPoint` or `MalformedNote` (spec §4.A/§4.B). -/
structure ScanEnv where
  keyPub : Nat → Bool → Nat
  keyPriv : Nat → Bool → Nat
  nullifierOf : Nat → Nat → Nat → Nat
  decryptLeaf : Nat → Nat → Except CryptoErr NoteE
  gapLimit : Nat
  fuel : Nat
  chainID : Nat

/-- The write list accumulated by `scanIndex`'s `leaves.forEach` (lines
255-288): decrypt or deserialize each present leaf and queue a TXO record
for every note addressed to the derived key.  A decryption failure aborts
the whole loop. -/
def scanIndexWrites (env : ScanEnv) (index : Nat) (change : Bool) (tree : Nat) :
    Nat → List (Option CommitmentE) →
    Except CryptoErr (List ((Nat × Nat × Nat) × TXORecord))
  | _, [] => .ok []
  | position, leaf :: rest => do
    let writes ←
      match leaf with
      | none => pure []
      | some c => do
        let (txid, note) ←
          match c with
          | .generated txid note => pure (txid, note)
          | .encrypted txid cipherId => do
            let note ← env.decryptLeaf cipherId (env.keyPriv index change)
            pure (txid, note)
        if note.pubkey = env.keyPub index change then
          pure [((env.chainID, tree, position),
            { index := index, change := change, spendtxid := none, txid := txid
              nullifier := env.nullifierOf (env.keyPriv index change) tree position
              decrypted := note })]
        else
          pure []
    let rest' ← scanIndexWrites env index change tree (position + 1) rest
    pure (writes ++ rest')

/-- `Wallet.scanIndex` (lines 242-295): compute the write batch over the
leaves, commit it to the store, and report whether anything matched. -/
def Wallet.scanIndex (env : ScanEnv) (index : Nat) (change : Bool)
    (leaves : List (Option CommitmentE)) (tree : Nat) (db : DBe) :
    Except CryptoErr (DBe × Bool) := do
  let writes ← scanIndexWrites env index change tree 0 leaves
  pure (writes.foldl dbPut db, !writes.isEmpty)

/-- Read of the sparse `usedIndexes` array (a missing entry is falsy). -/
def usedGet (l : List Bool) (i : Nat) : Bool := (l.get? i).getD false

/-- Write of the sparse `usedIndexes` array (missing entries become falsy). -/
def usedSet : List Bool → Nat → Bool → List Bool
  | [], 0, v => [v]
  | [], n + 1, v => false :: usedSet [] n v
  | _ :: xs, 0, v => v :: xs
  | x :: xs, n + 1, v => x :: usedSet xs n v

/-- `usedIndexes.lastIndexOf(true)`, with the source's `-1 → 0` collapse. -/
def lastTrueAux : List Bool → Nat → Option Nat
  | [], _ => none
  | b :: rest, i =>
    match lastTrueAux rest (i + 1) with
    | some j => some j
    | none => if b then some i else none

/-- The height update `lastIndexOf(true) === -1 ? 0 : lastIndexOf(true)`. -/
def lastTrue (l : List Bool) : Nat := (lastTrueAux l 0).getD 0

/-- One pass of the sweep (`for index = 0; index <= height + gapLimit`,
driven by the count of remaining indices): scan every index not already
marked used, marking the match flag as we go. -/
def scanPassGo (env : ScanEnv) (change : Bool) (leaves : List (Option CommitmentE))
    (tree : Nat) : Nat → Nat → List Bool → DBe →
    Except CryptoErr (List Bool × DBe)
  | 0, _, used, db => .ok (used, db)
  | rem + 1, idx, used, db =>
    if usedGet used idx then scanPassGo env change leaves tree rem (idx + 1) used db
    else do
      let (db', found) ← Wallet.scanIndex env idx change leaves tree db
      scanPassGo env change leaves tree rem (idx + 1) (usedSet used idx found) db'

/-- The sweep loop (`while usedIndexes.length < height + gapLimit`), with
explicit fuel standing in for the unbounded `while`. -/
def scanLoop (env : ScanEnv) (change : Bool) (leaves : List (Option CommitmentE))
    (tree : Nat) : Nat → Nat → List Bool → DBe →
    Except CryptoErr (Nat × List Bool × DBe)
  | 0, h, used, db => .ok (h, used, db)
  | fuel + 1, h, used, db =>
    if used.length < h + env.gapLimit then do
      let (used', db') ← scanPassGo env change leaves tree (h + env.gapLimit + 1) 0 used db
      scanLoop env change leaves tree fuel (lastTrue used') used' db'
    else .ok (h, used, db)

/-- `Wallet.scanLeaves` (lines 438-471): run sweep passes from the initial
height, returning the new height together with the final match flags and
store. -/
def Wallet.scanLeaves (env : ScanEnv) (leaves : List (Option CommitmentE))
    (change : Bool) (initialHeight : Nat) (tree : Nat) (db : DBe) :
    Except CryptoErr (Nat × List Bool × DBe) :=
  scanLoop env change leaves tree env.fuel initialHeight [] db

/-- Persisted wallet details (`WalletDetails`). -/
structure WalletDetailsE where
  treeScannedHeights : List Nat
  primaryHeight : Nat
  changeHeight : Nat
deriving DecidableEq, Inhabited

/-- Wallet state touched by `scan`: the details blob plus the TXO store. -/
structure WalletStateE where
  details : WalletDetailsE
  db : DBe
deriving DecidableEq, Inhabited

/-- List update (`treeScannedHeights[tree] = ...`). -/
def listSet {α : Type} : List α → Nat → α → List α
  | [], _, _ => []
  | _ :: xs, 0, v => v :: xs
  | x :: xs, n + 1, v => x :: listSet xs n v

/-- The sparse leaf fetch of `scan` (lines 505-521): positions below the
already-scanned height are holes, the rest are fetched from the tree. -/
def sparsifyFrom (start : Nat) : Nat → List CommitmentE → List (Option CommitmentE)
  | _, [] => []
  | i, c :: rest => (if start ≤ i then some c else none) :: sparsifyFrom start (i + 1) rest

/-- The per-tree body of `scan`'s tree loop (lines 501-547): fetch the
unscanned tail of the tree, sweep primary and change (both starting from the
persisted `primaryHeight`), then update the details. -/
def scanTreeStep (env : ScanEnv) (treeLeaves : List CommitmentE) (tree : Nat)
    (details : WalletDetailsE) (db : DBe) :
    Except CryptoErr (WalletDetailsE × DBe) := do
  let scannedHeight := (details.treeScannedHeights.get? tree).getD 0
  let leaves := sparsifyFrom scannedHeight 0 treeLeaves
  let (primaryHeight, _, db1) ←
    Wallet.scanLeaves env leaves false details.primaryHeight tree db
  let (changeHeight, _, db2) ←
    Wallet.scanLeaves env leaves true details.primaryHeight tree db1
  pure ({ details with
      primaryHeight := primaryHeight
      changeHeight := changeHeight
      treeScannedHeights := listSet details.treeScannedHeights tree
        (if 0 < treeLeaves.length then treeLeaves.length - 1 else 0) },
    db2)

/-- Fold of `scanTreeStep` over the trees in order. -/
def scanTrees (env : ScanEnv) : Nat → List (List CommitmentE) →
    WalletDetailsE → DBe → Except CryptoErr (WalletDetailsE × DBe)
  | _, [], details, db => .ok (details, db)
  | tree, leaves :: rest, details, db => do
    let (details', db') ← scanTreeStep env leaves tree details db
    scanTrees env (tree + 1) rest details' db'

/-- `Wallet.scan` (lines 477-561) for one call with the chain's trees fixed:
extend `treeScannedHeights` to the latest tree, sweep every tree, and persist
the updated details.  The per-chain lock only guards re-entrancy and is
identity on a single sequential call. -/
def Wallet.scan (env : ScanEnv) (trees : List (List CommitmentE))
    (st : WalletStateE) : Except CryptoErr WalletStateE := do
  let tsh := st.details.treeScannedHeights
  let tsh := tsh ++ List.replicate (trees.length - tsh.length) 0
  let (details', db') ← scanTrees env 0 trees { st.details with treeScannedHeights := tsh } st.db
  pure { details := details', db := db' }

/-! ### Builder lemmas -/

/-- Element lookup just past a left factor of an append. -/
theorem get_append_mid {α : Type} (l1 : List α) (x : α) (l2 : List α) :
    (l1 ++ x :: l2).get? l1.length = some x := by
  induction l1 with
  | nil => rfl
  | cons y ys ih => simpa using ih

/-- `mapWithIndex` preserves length. -/
theorem mapWithIndex_length {α β : Type} (f : Nat → α → β) :
    ∀ (i : Nat) (l : List α), (mapWithIndex f i l).length = l.length := by
  intro i l
  induction l generalizing i with
  | nil => rfl
  | cons x xs ih => simp [mapWithIndex, ih]

/-- `fillUTXOs` always returns exactly the requested circuit arity. -/
theorem fillUTXOs_length (env : TxEnv) (tree token : Nat) (sorted sel : List TXOe)
    (target : Nat) (hsel : sel.length ≤ target) :
    (fillUTXOs env tree token sorted sel target).length = target := by
  unfold fillUTXOs
  by_cases h : sorted.length < target
  · simp only [h, if_true, List.length_append, List.length_map, List.length_range]
    omega
  · simp only [h, if_false, List.length_append, List.length_take, List.length_reverse]
    omega

/-- Every tree solution is empty, of small arity 2, or of large arity 10. -/
theorem treeSolution_cases (env : TxEnv) (token : Nat) (required : Int) (tree : Nat)
    (tb : TreeBalance) (sol : List TXOe)
    (h : treeSolution env token required tree tb = some sol) :
    sol = [] ∨ sol.length = 2 ∨ sol.length = 10 := by
  simp only [treeSolution] at h
  split at h
  · exact Or.inl (Option.some.inj h).symm
  · split at h
    · exact absurd h (by simp)
    · rename_i sel hgreedy
      split at h
      · rename_i hle
        refine Or.inr (Or.inl ?_)
        have hlen := fillUTXOs_length env tree token (sortDescByAmount tb.utxos) sel
          NOTE_INPUTS_small hle
        rw [← Option.some.inj h]
        exact hlen
      · split at h
        · rename_i hle
          refine Or.inr (Or.inr ?_)
          have hlen := fillUTXOs_length env tree token (sortDescByAmount tb.utxos) sel
            NOTE_INPUTS_large hle
          rw [← Option.some.inj h]
          exact hlen
        · exact Or.inl (Option.some.inj h).symm

/-- Arities of the entries of the `solutions` array. -/
theorem solutionsFor_entry_cases (env : TxEnv) (token : Nat) (required : Int) :
    ∀ (bal : List TreeBalance) (t0 i : Nat) (sol : List TXOe),
      (solutionsFor env token required t0 bal).get? i = some (some sol) →
      sol = [] ∨ sol.length = 2 ∨ sol.length = 10 := by
  intro bal
  induction bal with
  | nil => intro t0 i sol h; simp [solutionsFor] at h
  | cons tb rest ih =>
    intro t0 i sol h
    cases i with
    | zero =>
      simp only [solutionsFor, List.get?] at h
      exact treeSolution_cases env token required t0 tb sol (Option.some.inj h)
    | succ n =>
      exact ih (t0 + 1) n sol (by simpa [solutionsFor] using h)

/-- A successful `findIndex` points at a nonempty solution. -/
theorem firstSolIdx_some :
    ∀ (l : List (List TXOe)) (i : Nat), firstSolIdx l = some i →
      ∃ s, l.get? i = some s ∧ s ≠ [] := by
  intro l
  induction l with
  | nil => intro i h; simp [firstSolIdx] at h
  | cons s rest ih =>
    intro i h
    by_cases hs : s = []
    · simp only [firstSolIdx, hs, ne_eq, not_true_eq_false, if_false] at h
      obtain ⟨j, hj, hji⟩ := Option.map_eq_some'.mp h
      obtain ⟨s', hs', hne⟩ := ih j hj
      exact ⟨s', by simpa [← hji] using hs', hne⟩
    · simp only [firstSolIdx, hs, ne_eq, not_false_eq_true, if_true] at h
      refine ⟨s, ?_, hs⟩
      rw [← Option.some.inj h]
      rfl

/-- `findIndex` fails when every solution is empty. -/
theorem firstSolIdx_none (l : List (List TXOe)) (h : ∀ s ∈ l, s = []) :
    firstSolIdx l = none := by
  induction l with
  | nil => rfl
  | cons s rest ih =>
    have hs : s = [] := h s (by simp)
    simp [firstSolIdx, hs, ih (fun s' hs' => h s' (by simp [hs']))]

/-- Inversion of a successful `generateInputs`: the precondition checks
passed, a tree was chosen with its (crash-free) solution, and the result is
the assembled witness for that solution. -/
theorem generateInputs_ok_inv (env : TxEnv) (tx : ERC20TransactionE)
    (bal : List TreeBalance) (r : GenInputsResult × List CommitmentOut)
    (h : ERC20Transaction.generateInputs env tx bal = .ok r) :
    tx.outputs.length ≤ 2 ∧
    ∃ tree sol,
      chooseTree tx.treePin
        ((solutionsFor env tx.token (requiredOf tx) 0 bal).map (fun s => s.getD [])) =
        some tree ∧
      ((solutionsFor env tx.token (requiredOf tx) 0 bal).map (fun s => s.getD [])).get? tree =
        some sol ∧
      (solutionsFor env tx.token (requiredOf tx) 0 bal).any (fun s => s.isNone) = false ∧
      r = buildResult env tx tree sol := by
  simp only [ERC20Transaction.generateInputs] at h
  split at h
  · exact absurd h (by simp)
  · split at h
    · exact absurd h (by simp)
    · split at h
      · exact absurd h (by simp)
      · split at h
        · exact absurd h (by simp)
        · rename_i houtputs htok hbal hany
          split at h
          · exact absurd h (by simp)
          · rename_i tree hchoose
            split at h
            · exact absurd h (by simp)
            · split at h
              · exact absurd h (by simp)
              · rename_i hwd1 hwd2
                split at h
                · exact absurd h (by simp)
                · rename_i sol hget
                  refine ⟨by omega, tree, sol, hchoose, hget, ?_, (Except.ok.inj h).symm⟩
                  cases hC : (solutionsFor env tx.token (requiredOf tx) 0 bal).any
                      (fun s => s.isNone)
                  · rfl
                  · exact absurd hC hany

/-- Lengths of the witness components assembled by `buildResult`: input-side
lists mirror the solution, output-side lists are the three commitments. -/
theorem buildResult_lengths (env : TxEnv) (tx : ERC20TransactionE) (tree : Nat)
    (sol : List TXOe) (hout : tx.outputs.length ≤ 2) :
    (buildResult env tx tree sol).1.nullifiers.length = sol.length ∧
    (buildResult env tx tree sol).1.spendingKeys.length = sol.length ∧
    (buildResult env tx tree sol).1.pathElements.length = sol.length ∧
    (buildResult env tx tree sol).1.pathIndices.length = sol.length ∧
    (buildResult env tx tree sol).1.randomIn.length = sol.length ∧
    (buildResult env tx tree sol).1.valuesIn.length = sol.length ∧
    (buildResult env tx tree sol).1.commitmentsOut.length = 3 ∧
    (buildResult env tx tree sol).1.recipientPK.length = 3 ∧
    (buildResult env tx tree sol).1.randomOut.length = 3 ∧
    (buildResult env tx tree sol).1.valuesOut.length = 3 := by
  refine ⟨?_, ?_, ?_, ?_, ?_, ?_, ?_, ?_, ?_, ?_⟩ <;>
    simp only [buildResult, outCommitments, List.length_map, List.length_append,
      List.length_range, List.length_cons, List.length_nil, NOTE_OUTPUTS] <;>
    omega

/-- The solution the chosen tree contributes is an entry of the `solutions`
array and did not come from a crashed greedy loop. -/
theorem chosen_solution_entry (env : TxEnv) (token : Nat) (required : Int)
    (bal : List TreeBalance) (tree : Nat) (sol : List TXOe)
    (hget : ((solutionsFor env token required 0 bal).map (fun s => s.getD [])).get? tree =
      some sol)
    (hany : (solutionsFor env token required 0 bal).any (fun s => s.isNone) = false) :
    (solutionsFor env token required 0 bal).get? tree = some (some sol) := by
  rw [List.get?_map] at hget
  obtain ⟨s0, hs0, hde⟩ := Option.map_eq_some'.mp hget
  cases s0 with
  | none =>
    have : (solutionsFor env token required 0 bal).any (fun s => s.isNone) = true :=
      List.any_eq_true.mpr ⟨none, List.get?_mem hs0, rfl⟩
    rw [hany] at this
    exact absurd this (by simp)
  | some s' =>
    simp only [Option.getD_some] at hde
    rw [hde] at hs0
    exact hs0

/-- C3 (amended): every successful `generateInputs` produces equally long
`nullifiers`, `spendingKeys`, `pathElements`, `pathIndices`, `randomIn` and
`valuesIn` lists, exactly 3 output commitments (and `recipientPK`,
`randomOut`, `valuesOut` entries); when no tree is caller-pinned the
nullifier count is exactly 2 or exactly 10 (a caller-pinned nonzero tree
bypasses the solution check and can yield 0 nullifiers); and the small
circuit is selected iff the nullifier count is 2. -/
theorem generateInputs_arity (env : TxEnv) (tx : ERC20TransactionE)
    (bal : List TreeBalance) (r : GenInputsResult) (c : List CommitmentOut)
    (h : ERC20Transaction.generateInputs env tx bal = .ok (r, c)) :
    r.spendingKeys.length = r.nullifiers.length ∧
    r.pathElements.length = r.nullifiers.length ∧
    r.pathIndices.length = r.nullifiers.length ∧
    r.randomIn.length = r.nullifiers.length ∧
    r.valuesIn.length = r.nullifiers.length ∧
    r.commitmentsOut.length = 3 ∧
    r.recipientPK.length = 3 ∧
    r.randomOut.length = 3 ∧
    r.valuesOut.length = 3 ∧
    (tx.treePin = none → (r.nullifiers.length = 2 ∨ r.nullifiers.length = 10)) ∧
    (∀ n, ERC20Transaction.circuitFor n = Circuits.erc20small ↔ n = 2) := by
  obtain ⟨hlen, tree, sol, hchoose, hget, hany, hr⟩ :=
    generateInputs_ok_inv env tx bal (r, c) h
  have hr1 : r = (buildResult env tx tree sol).1 := congrArg Prod.fst hr
  obtain ⟨l1, l2, l3, l4, l5, l6, l7, l8, l9, l10⟩ :=
    buildResult_lengths env tx tree sol hlen
  subst hr1
  refine ⟨by rw [l1, l2], by rw [l1, l3], by rw [l1, l4], by rw [l1, l5],
    by rw [l1, l6], l7, l8, l9, l10, ?_, ?_⟩
  · intro hpin
    rw [hpin] at hchoose
    simp only [chooseTree] at hchoose
    obtain ⟨s, hs, hne⟩ := firstSolIdx_some _ tree hchoose
    have hssol : s = sol := by rw [hget] at hs; exact (Option.some.inj hs).symm
    subst hssol
    have hentry := chosen_solution_entry env tx.token (requiredOf tx) bal tree s hget hany
    rcases solutionsFor_entry_cases env tx.token (requiredOf tx) bal 0 tree s hentry with
      hc | hc | hc
    · exact absurd hc hne
    · exact Or.inl (by rw [l1, hc])
    · exact Or.inr (by rw [l1, hc])
  · intro n
    simp only [ERC20Transaction.circuitFor, NOTE_INPUTS_small]
    constructor
    · intro hn
      by_contra hne
      simp [hne] at hn
    · intro hn
      simp [hn]

/-- Concrete, fully determined oracle environment used for evaluating the
builder on explicit scenarios. -/
def txEnv0 : TxEnv :=
  { keypairPub := fun i c => if c then 1000 + i else i
    keypairPriv := fun i c => if c then 2000 + i else 100 + i
    getProofElements := fun _ _ => List.replicate depths_erc20 0
    getRoot := fun t => 500 + t
    nullifierOf := fun p t pos => p * 10000 + t * 100 + pos
    noteHash := fun n => n.pubkey + n.random + n.token
    privToPub := fun k => 3000 + k
    dummyInKey := fun t s => 4000 + 100 * t + s
    dummyInRandom := fun t s => 5000 + 100 * t + s
    changeRandom := 6000
    dummyOutKey := fun s => 7000 + s
    dummyOutRandom := fun s => 8000 + s
    senderPriv := fun i => 9000 + i
    ecdh := fun a b => a + b
    encryptNote := fun _ _ => ([1], [[2], [3], [4]])
    viewKey := 42
    aesEncrypt := fun _ _ _ => ([5], [[6]])
    sha256 := fun _ => List.replicate 32 1
    unpackPoint := fun p => ([p], [p + 1]) }

/-- A non-dummy UTXO holding `amount` of token 9 in the given tree. -/
def utxoAt (tree pos : Nat) (amount : Int) : TXOe :=
  { tree := tree, position := pos, index := pos, change := false, dummyKey := none
    note := { pubkey := 1, random := 0, amount := amount, token := 9 } }

/-- Transaction spending 11 of token 9 with tree 1 caller-pinned. -/
def txPinned : ERC20TransactionE :=
  { adaptContract := [0], adaptParameters := [0], chainID := 1, token := 9
    outputs := [{ pubkey := 77, random := 0, amount := 11, token := 9 }]
    deposit := 0, withdraw := 0, withdrawAddress := none, treePin := some 1 }

/-- Two trees of eleven one-unit notes each: every greedy selection needs
11 > 10 inputs, so neither tree has a spending solution. -/
def balElevenTwice : List TreeBalance :=
  [{ balance := 11, utxos := (List.range 11).map (fun i => utxoAt 0 i 1) },
   { balance := 11, utxos := (List.range 11).map (fun i => utxoAt 1 i 1) }]

/-- Counterexample to C3 as stated: with tree 1 caller-pinned and no tree
having a spending solution, `generateInputs` still returns successfully and
the private inputs carry 0 nullifiers — not 2 or 10. -/
theorem generateInputs_arity_cex :
    txPinned.treePin = some 1 ∧
    (ERC20Transaction.generateInputs txEnv0 txPinned balElevenTwice).map
      (fun rc => rc.1.nullifiers.length) = .ok 0 := by
  constructor
  · rfl
  · rfl

/-- A one-tree wallet covering a small unpinned spend of 3 out of 5 + 6. -/
def txSmall : ERC20TransactionE :=
  { adaptContract := [0], adaptParameters := [0], chainID := 1, token := 9
    outputs := [{ pubkey := 77, random := 0, amount := 3, token := 9 }]
    deposit := 0, withdraw := 0, withdrawAddress := none, treePin := none }

/-- Balances for the small-spend scenario. -/
def balSmall : List TreeBalance :=
  [{ balance := 11, utxos := [utxoAt 0 0 5, utxoAt 0 1 6] }]

/-- The successful result of the small-spend scenario. -/
def resSmall : GenInputsResult × List CommitmentOut :=
  (ERC20Transaction.generateInputs txEnv0 txSmall balSmall).toOption.getD default

/-- Witness for C3 (amended): the small-spend scenario succeeds without a
pinned tree and its nullifier count lands in {2, 10}. -/
theorem generateInputs_arity_witness :
    resSmall.1.nullifiers.length = 2 ∨ resSmall.1.nullifiers.length = 10 :=
  (generateInputs_arity txEnv0 txSmall balSmall resSmall.1 resSmall.2
    rfl).2.2.2.2.2.2.2.2.2.1 rfl

/-- C6 (amended): a caller-pinned nonzero tree is used as-is; without a
(truthy) pin the first tree with a nonempty solution is chosen; a tree whose
greedy selection needs more than 10 UTXOs yields the empty (no) solution;
and when no tree has a solution and no nonzero tree is pinned,
`generateInputs` fails with the consolidation error — a pinned tree 0 is
ignored by the JavaScript falsy test. -/
theorem tree_choice_spec (env : TxEnv) (tx : ERC20TransactionE) (bal : List TreeBalance) :
    (∀ t r c, tx.treePin = some t → t ≠ 0 →
      ERC20Transaction.generateInputs env tx bal = .ok (r, c) → r.treeNumber = t) ∧
    (∀ r c, tx.treePin = none →
      ERC20Transaction.generateInputs env tx bal = .ok (r, c) →
      firstSolIdx ((solutionsFor env tx.token (requiredOf tx) 0 bal).map
        (fun s => s.getD [])) = some r.treeNumber) ∧
    (∀ tree tb sel, ¬ tb.balance < requiredOf tx →
      greedyTake (requiredOf tx) (sortDescByAmount tb.utxos) = some sel →
      10 < sel.length →
      treeSolution env tx.token (requiredOf tx) tree tb = some []) ∧
    (tx.treePin = none →
      tx.outputs.length ≤ 2 →
      (∀ o ∈ tx.outputs, o.token = tx.token) →
      requiredOf tx ≤ (bal.map (fun tb => tb.balance)).sum →
      (∀ s ∈ solutionsFor env tx.token (requiredOf tx) 0 bal, s = some []) →
      ERC20Transaction.generateInputs env tx bal = .error .needsConsolidation) := by
  refine ⟨?_, ?_, ?_, ?_⟩
  · intro t r c hpin ht h
    obtain ⟨hlen, tree, sol, hchoose, hget, hany, hr⟩ :=
      generateInputs_ok_inv env tx bal (r, c) h
    rw [hpin] at hchoose
    simp only [chooseTree, ne_eq, ht, not_false_eq_true, if_true] at hchoose
    have htree : tree = t := (Option.some.inj hchoose).symm
    have : r = (buildResult env tx tree sol).1 := congrArg Prod.fst hr
    rw [this, ← htree]
    rfl
  · intro r c hpin h
    obtain ⟨hlen, tree, sol, hchoose, hget, hany, hr⟩ :=
      generateInputs_ok_inv env tx bal (r, c) h
    rw [hpin] at hchoose
    simp only [chooseTree] at hchoose
    have : r = (buildResult env tx tree sol).1 := congrArg Prod.fst hr
    rw [this]
    exact hchoose
  · intro tree tb sel hb hgreedy hgt
    simp only [treeSolution, if_neg hb, hgreedy]
    have h2 : ¬ sel.length ≤ NOTE_INPUTS_small := by
      simp only [NOTE_INPUTS_small]; omega
    have h10 : ¬ sel.length ≤ NOTE_INPUTS_large := by
      simp only [NOTE_INPUTS_large]; omega
    rw [if_neg h2, if_neg h10]
  · intro hpin hout htok hbal hsol
    have c1 : ¬ (2 < tx.outputs.length) := by omega
    have c2 : (tx.outputs.any fun o => o.token ≠ tx.token) = false := by
      rw [List.any_eq_false]
      intro o ho
      simp [htok o ho]
    have c3 : ¬ ((bal.map (fun tb => tb.balance)).sum < requiredOf tx) := not_lt.mpr hbal
    have c4 : ((solutionsFor env tx.token (requiredOf tx) 0 bal).any
        (fun s => s.isNone)) = false := by
      rw [List.any_eq_false]
      intro s hs
      rw [hsol s hs]
      simp
    have c5 : firstSolIdx ((solutionsFor env tx.token (requiredOf tx) 0 bal).map
        (fun s => s.getD [])) = none := by
      refine firstSolIdx_none _ ?_
      intro s' hs'
      obtain ⟨s, hs, hmap⟩ := List.mem_map.mp hs'
      rw [hsol s hs] at hmap
      simpa using hmap.symm
    simp only [ERC20Transaction.generateInputs, if_neg c1, c2, Bool.false_eq_true,
      if_false, if_neg c3, c4, hpin, chooseTree, c5]

/-- Same spend as `txPinned` but with tree 0 caller-pinned. -/
def txPinZero : ERC20TransactionE :=
  { adaptContract := [0], adaptParameters := [0], chainID := 1, token := 9
    outputs := [{ pubkey := 77, random := 0, amount := 11, token := 9 }]
    deposit := 0, withdraw := 0, withdrawAddress := none, treePin := some 0 }

/-- Tree 0 cannot cover the spend, tree 1 can. -/
def balPinZero : List TreeBalance :=
  [{ balance := 1, utxos := [utxoAt 0 0 1] },
   { balance := 20, utxos := [utxoAt 1 0 20] }]

/-- Counterexample to C6 as stated: the caller pins tree 0, yet the builder
chooses tree 1 (the first tree with a solution) because `this.tree ||` treats
a pinned tree 0 as falsy. -/
theorem tree_choice_cex :
    txPinZero.treePin = some 0 ∧
    (ERC20Transaction.generateInputs txEnv0 txPinZero balPinZero).map
      (fun rc => rc.1.treeNumber) = .ok 1 := ⟨rfl, rfl⟩

/-- The spec's consolidation scenario: an unpinned spend of 11 against
eleven one-unit notes. -/
def txConsol : ERC20TransactionE :=
  { adaptContract := [0], adaptParameters := [0], chainID := 1, token := 9
    outputs := [{ pubkey := 77, random := 0, amount := 11, token := 9 }]
    deposit := 0, withdraw := 0, withdrawAddress := none, treePin := none }

/-- A single tree of eleven one-unit notes (total balance 11). -/
def balEleven : List TreeBalance :=
  [{ balance := 11, utxos := (List.range 11).map (fun i => utxoAt 0 i 1) }]

/-- Witness for C6 (amended): the eleven-note scenario fails with the
consolidation error even though the total balance covers the spend. -/
theorem tree_choice_witness :
    ERC20Transaction.generateInputs txEnv0 txConsol balEleven =
      .error .needsConsolidation :=
  (tree_choice_spec txEnv0 txConsol balEleven).2.2.2 rfl (by decide) (by decide)
    (by decide) (by decide)


/-- Lookup at the splice point of a mapped list. -/
theorem get_map_at_mid {α β : Type} (f : α → β) (l1 : List α) (x : α) (l2 : List α) :
    ((l1 ++ x :: l2).map f).get? l1.length = some (f x) := by
  rw [List.map_append, List.map_cons]
  have hmid := get_append_mid (l1.map f) (f x) (l2.map f)
  rwa [List.length_map] at hmid

/-- Lookup past the splice point of a mapped list. -/
theorem get_map_past_mid {α β : Type} (f : α → β) (l1 : List α) (x : α) (l2 : List α)
    (j : Nat) (hj : l1.length < j) :
    ((l1 ++ x :: l2).map f).get? j = (l2.map f).get? (j - l1.length - 1) := by
  rw [List.map_append, List.map_cons,
    List.get?_append_right (by rw [List.length_map]; omega)]
  rw [List.length_map]
  have hsplit : j - l1.length = (j - l1.length - 1) + 1 := by omega
  rw [hsplit]
  rfl

/-- The output commitments decompose around the change note: caller outputs,
then the change note, then the dummy padding. -/
theorem outCommitments_decomp (env : TxEnv) (tx : ERC20TransactionE) (sol : List TXOe) :
    outCommitments env tx sol =
      tx.outputs ++ changeNoteOf env tx sol ::
        (List.range (NOTE_OUTPUTS - (tx.outputs.length + 1))).map (dummyOutNote env tx) := by
  simp [outCommitments, List.append_assoc, List.length_append]

/-- Lookup into a mapped range. -/
theorem get_range_map {β : Type} (f : Nat → β) (k i : Nat) (hi : i < k) :
    ((List.range k).map f).get? i = some (f i) := by
  rw [List.get?_map, List.get?_range hi]
  rfl

/-- C10: among the exactly-3 output commitments of a successful
`generateInputs` there is, at position `outputs.length` (before any
dummy-output padding), exactly one change note addressed to the wallet's
change keypair at derivation index 0 whose amount is `totalIn − totalOut` —
also when that difference is 0, when the zero-amount change note is still
created — and every later commitment is a zero-amount dummy. -/
theorem change_note_structure (env : TxEnv) (tx : ERC20TransactionE)
    (bal : List TreeBalance) (r : GenInputsResult) (c : List CommitmentOut)
    (h : ERC20Transaction.generateInputs env tx bal = .ok (r, c)) :
    r.recipientPK.length = 3 ∧
    r.recipientPK.get? tx.outputs.length = some (env.keypairPub 0 true) ∧
    r.randomOut.get? tx.outputs.length = some env.changeRandom ∧
    r.valuesOut.get? tx.outputs.length =
      some (r.valuesIn.sum + tx.deposit -
        ((tx.outputs.map (fun o => o.amount)).sum + tx.withdraw)) ∧
    (∀ j, tx.outputs.length < j → j < 3 → r.valuesOut.get? j = some 0) := by
  obtain ⟨hlen, tree, sol, hchoose, hget, hany, hr⟩ :=
    generateInputs_ok_inv env tx bal (r, c) h
  have hr1 : r = (buildResult env tx tree sol).1 := congrArg Prod.fst hr
  subst hr1
  refine ⟨?_, ?_, ?_, ?_, ?_⟩
  · simp only [buildResult, outCommitments, List.length_map, List.length_append,
      List.length_range, List.length_cons, List.length_nil, NOTE_OUTPUTS]
    omega
  · simp only [buildResult]
    rw [outCommitments_decomp, get_map_at_mid]
    simp [changeNoteOf]
  · simp only [buildResult]
    rw [outCommitments_decomp, get_map_at_mid]
    simp [changeNoteOf]
  · simp only [buildResult]
    rw [outCommitments_decomp, get_map_at_mid]
    simp [changeNoteOf]
  · intro j hj1 hj3
    simp only [buildResult]
    rw [outCommitments_decomp, get_map_past_mid _ _ _ _ j hj1, List.map_map]
    rw [get_range_map _ _ _ (by simp only [NOTE_OUTPUTS]; omega)]
    simp [dummyOutNote, Function.comp]

/-- A spend with zero change: output 3 plus withdraw 8 exactly consumes the
5 + 6 balance of `balSmall`. -/
def txZeroChange : ERC20TransactionE :=
  { adaptContract := [0], adaptParameters := [0], chainID := 1, token := 9
    outputs := [{ pubkey := 77, random := 0, amount := 3, token := 9 }]
    deposit := 0, withdraw := 8, withdrawAddress := some 555, treePin := none }

/-- The successful result of the zero-change scenario. -/
def resZeroChange : GenInputsResult × List CommitmentOut :=
  (ERC20Transaction.generateInputs txEnv0 txZeroChange balSmall).toOption.getD default

/-- Witness for C10: in the zero-change scenario the change note is still
created — commitment 1 is addressed to the change keypair at index 0 and
carries amount 0. -/
theorem change_note_structure_witness :
    resZeroChange.1.valuesOut.get? 1 = some 0 ∧
    resZeroChange.1.recipientPK.get? 1 = some (txEnv0.keypairPub 0 true) := by
  have hprops := change_note_structure txEnv0 txZeroChange balSmall
    resZeroChange.1 resZeroChange.2 rfl
  exact ⟨hprops.2.2.2.1.trans (by decide), hprops.2.1⟩

/-! ### Scanner scenarios -/

/-- Concrete scan environment: primary keys equal the derivation index,
change keys are offset, decryption always rejects (only cleartext leaves are
used in this scenario). -/
def scanEnvC8 : ScanEnv :=
  { keyPub := fun i c => if c then 1000 + i else i
    keyPriv := fun i c => if c then 3000 + i else 2000 + i
    nullifierOf := fun p t pos => p * 10000 + t * 100 + pos
    decryptLeaf := fun _ _ => .error .malformedNote
    gapLimit := 5
    fuel := 10
    chainID := 7 }

/-- One tree: a cleartext note for primary derivation index 2 at position 0,
and a foreign note at position 1. -/
def treesC8 : List (List CommitmentE) :=
  [[.generated 11 { pubkey := 2, random := 0, amount := 5, token := 9 },
    .generated 12 { pubkey := 999, random := 0, amount := 5, token := 9 }]]

/-- Fresh wallet state before the first scan. -/
def scanStateC8 : WalletStateE :=
  { details := { treeScannedHeights := [], primaryHeight := 0, changeHeight := 0 }
    db := [] }

/-- C8 failing input: scanning twice with no new chain events is not
idempotent — the first scan finds the note at derivation index 2 and sets
`primaryHeight := 2`, but the second scan re-derives the height from only
the re-fetched tail leaf (which is foreign) and resets `primaryHeight` to 0,
while the TXO records stay unchanged. -/
theorem scan_not_idempotent :
    ((Wallet.scan scanEnvC8 treesC8 scanStateC8).bind (fun st1 =>
      (Wallet.scan scanEnvC8 treesC8 st1).map (fun st2 =>
        (st1.details.primaryHeight, st2.details.primaryHeight,
          decide (st1.db = st2.db))))) = .ok (2, 0, true) := rfl

/-- Concrete scan environment for the failure-propagation scenario: the
ciphertext with identifier 0 is undecryptable. -/
def scanEnvC9 : ScanEnv :=
  { keyPub := fun i c => if c then 1000 + i else i
    keyPriv := fun i c => if c then 3000 + i else 2000 + i
    nullifierOf := fun p t pos => p * 10000 + t * 100 + pos
    decryptLeaf := fun cid _ =>
      if cid = 0 then .error .malformedNote
      else .ok { pubkey := 0, random := 0, amount := 0, token := 0 }
    gapLimit := 5
    fuel := 10
    chainID := 7 }

/-- A malformed encrypted leaf at position 0 followed by a matching
cleartext note (for derivation index 4) at position 1. -/
def leavesC9 : List (Option CommitmentE) :=
  [some (.encrypted 21 0),
   some (.generated 22 { pubkey := 4, random := 0, amount := 5, token := 9 })]

/-- The same batch with the malformed leaf absent. -/
def leavesC9' : List (Option CommitmentE) :=
  [none,
   some (.generated 22 { pubkey := 4, random := 0, amount := 5, token := 9 })]

/-- C9 failing input: a single undecryptable leaf aborts `scanIndex` (and
hence the whole sweep) with the cryptographic error and nothing is recorded,
although the very same batch without the malformed leaf records the matching
note; the failure is not local to the leaf. -/
theorem scanIndex_failure_aborts :
    Wallet.scanIndex scanEnvC9 4 false leavesC9 0 [] = .error .malformedNote ∧
    Wallet.scanLeaves scanEnvC9 leavesC9 false 0 0 [] = .error .malformedNote ∧
    (Wallet.scanIndex scanEnvC9 4 false leavesC9' 0 []).map
      (fun r => (r.2, r.1.length)) = .ok (true, 1) := ⟨rfl, rfl, rfl⟩

/-! ### Gap-limit lemmas (C7) -/

/-- `usedSet` behaves as a pointwise update under `usedGet`. -/
theorem usedGet_usedSet : ∀ (l : List Bool) (j : Nat) (v : Bool) (i : Nat),
    usedGet (usedSet l j v) i = if i = j then v else usedGet l i := by
  intro l
  induction l with
  | nil =>
    intro j
    induction j with
    | zero =>
      intro v i
      cases i with
      | zero => simp [usedSet, usedGet]
      | succ m => simp [usedSet, usedGet]
    | succ n ih =>
      intro v i
      cases i with
      | zero => simp [usedSet, usedGet]
      | succ m =>
        have hm := ih v m
        simp only [usedSet, usedGet, List.get?] at hm ⊢
        rw [hm]
        by_cases hmn : m = n
        · simp [hmn]
        · simp [hmn, fun h => hmn (Nat.succ_injective h)]
  | cons x xs ih =>
    intro j v i
    cases j with
    | zero =>
      cases i with
      | zero => simp [usedSet, usedGet]
      | succ m => simp [usedSet, usedGet]
    | succ n =>
      cases i with
      | zero => simp [usedSet, usedGet]
      | succ m =>
        have hm := ih n v m
        simp only [usedSet, usedGet, List.get?] at hm ⊢
        rw [hm]
        by_cases hmn : m = n
        · simp [hmn]
        · simp [hmn, fun h => hmn (Nat.succ_injective h)]

/-- All-false flags read false everywhere. -/
theorem usedGet_replicate_false : ∀ (n i : Nat),
    usedGet (List.replicate n false) i = false := by
  intro n
  induction n with
  | zero => intro i; cases i <;> simp [usedGet]
  | succ m ih =>
    intro i
    cases i with
    | zero => simp [usedGet, List.replicate]
    | succ k =>
      have := ih k
      simp only [usedGet, List.replicate, List.get?] at this ⊢
      exact this

/-- Setting the next flag of an all-false array to false extends it. -/
theorem usedSet_replicate_false : ∀ (n : Nat),
    usedSet (List.replicate n false) n false = List.replicate (n + 1) false := by
  intro n
  induction n with
  | zero => rfl
  | succ m ih =>
    simp only [List.replicate, usedSet]
    rw [ih]
    rfl

/-- `lastIndexOf(true)` over all-false flags collapses to 0. -/
theorem lastTrue_replicate_false (n : Nat) : lastTrue (List.replicate n false) = 0 := by
  have haux : ∀ (m i : Nat), lastTrueAux (List.replicate m false) i = none := by
    intro m
    induction m with
    | zero => intro i; rfl
    | succ k ih => intro i; simp [List.replicate, lastTrueAux, ih (i + 1)]
  simp [lastTrue, haux n 0]

/-- Whether `scanIndex` at an index finds a matching leaf; this is
independent of the store the index is scanned against. -/
def foundAt (env : ScanEnv) (change : Bool) (leaves : List (Option CommitmentE))
    (tree : Nat) (i : Nat) : Option Bool :=
  (scanIndexWrites env i change tree 0 leaves).toOption.map (fun ws => !ws.isEmpty)

/-- A successful `scanIndex` reports exactly `foundAt`. -/
theorem scanIndex_found (env : ScanEnv) (idx : Nat) (ch : Bool)
    (leaves : List (Option CommitmentE)) (tree : Nat) (db db' : DBe) (f : Bool)
    (h : Wallet.scanIndex env idx ch leaves tree db = .ok (db', f)) :
    foundAt env ch leaves tree idx = some f := by
  unfold Wallet.scanIndex at h
  cases hw : scanIndexWrites env idx ch tree 0 leaves with
  | error e => rw [hw] at h; exact Except.noConfusion h
  | ok ws =>
    rw [hw] at h
    have h2 : ((ws.foldl dbPut db : DBe), !ws.isEmpty) = (db', f) := Except.ok.inj h
    show (scanIndexWrites env idx ch tree 0 leaves).toOption.map
      (fun ws => !ws.isEmpty) = some f
    rw [hw]
    exact congrArg some (congrArg Prod.snd h2)

/-- An index with no match leaves the store untouched. -/
theorem scanIndex_of_foundAt_false (env : ScanEnv) (idx : Nat) (ch : Bool)
    (leaves : List (Option CommitmentE)) (tree : Nat) (db : DBe)
    (h : foundAt env ch leaves tree idx = some false) :
    Wallet.scanIndex env idx ch leaves tree db = .ok (db, false) := by
  unfold foundAt at h
  cases hw : scanIndexWrites env idx ch tree 0 leaves with
  | error e => rw [hw] at h; simp [Except.toOption] at h
  | ok ws =>
    rw [hw] at h
    simp only [Except.toOption, Option.map_some', Option.some.injEq] at h
    have hws : ws = [] := by
      cases ws with
      | nil => rfl
      | cons w rest => simp at h
    subst hws
    unfold Wallet.scanIndex
    rw [hw]
    rfl

/-- A pass never clears a set match flag. -/
theorem scanPassGo_preserves (env : ScanEnv) (ch : Bool)
    (leaves : List (Option CommitmentE)) (tree : Nat) :
    ∀ (rem idx : Nat) (used : List Bool) (db : DBe) (used' : List Bool) (db' : DBe),
      scanPassGo env ch leaves tree rem idx used db = .ok (used', db') →
      ∀ i, usedGet used i = true → usedGet used' i = true := by
  intro rem
  induction rem with
  | zero =>
    intro idx used db used' db' h i hi
    have h2 := Except.ok.inj h
    injection h2 with ha hb
    rw [← ha]
    exact hi
  | succ r ih =>
    intro idx used db used' db' h i hi
    simp only [scanPassGo] at h
    split at h
    · exact ih _ _ _ _ _ h i hi
    · rename_i hskip
      cases hs : Wallet.scanIndex env idx ch leaves tree db with
      | error e => rw [hs] at h; exact Except.noConfusion h
      | ok p =>
        rw [hs] at h
        have h' : scanPassGo env ch leaves tree r (idx + 1)
            (usedSet used idx p.2) p.1 = .ok (used', db') := h
        refine ih _ _ _ _ _ h' i ?_
        rw [usedGet_usedSet]
        by_cases hij : i = idx
        · rw [hij] at hi; exact absurd hi hskip
        · simp [hij, hi]

/-- A pass sets the match flag of every in-range index with a match. -/
theorem scanPassGo_sets (env : ScanEnv) (ch : Bool)
    (leaves : List (Option CommitmentE)) (tree : Nat) :
    ∀ (rem idx : Nat) (used : List Bool) (db : DBe) (used' : List Bool) (db' : DBe),
      scanPassGo env ch leaves tree rem idx used db = .ok (used', db') →
      ∀ i, idx ≤ i → i < idx + rem →
        foundAt env ch leaves tree i = some true →
        usedGet used' i = true := by
  intro rem
  induction rem with
  | zero => intro idx used db used' db' h i h1 h2 hf; omega
  | succ r ih =>
    intro idx used db used' db' h i h1 h2 hf
    simp only [scanPassGo] at h
    split at h
    · rename_i htrue
      by_cases hij : i = idx
      · subst hij
        exact scanPassGo_preserves env ch leaves tree r (i + 1) used db used' db' h i htrue
      · exact ih (idx + 1) used db used' db' h i (by omega) (by omega) hf
    · rename_i hskip
      cases hs : Wallet.scanIndex env idx ch leaves tree db with
      | error e => rw [hs] at h; exact Except.noConfusion h
      | ok p =>
        rw [hs] at h
        have h' : scanPassGo env ch leaves tree r (idx + 1)
            (usedSet used idx p.2) p.1 = .ok (used', db') := h
        by_cases hij : i = idx
        · subst hij
          have hfi := scanIndex_found env i ch leaves tree db p.1 p.2 (by rw [hs])
          have hp2 : p.2 = true := Option.some.inj (hfi.symm.trans hf)
          refine scanPassGo_preserves env ch leaves tree r (i + 1) _ _ _ _ h' i ?_
          rw [usedGet_usedSet]
          simp [hp2]
        · exact ih (idx + 1) _ _ _ _ h' i (by omega) (by omega) hf

/-- The sweep loop never clears a set match flag. -/
theorem scanLoop_preserves (env : ScanEnv) (ch : Bool)
    (leaves : List (Option CommitmentE)) (tree : Nat) :
    ∀ (fuel h : Nat) (used : List Bool) (db : DBe) (h' : Nat) (used' : List Bool)
      (db' : DBe),
      scanLoop env ch leaves tree fuel h used db = .ok (h', used', db') →
      ∀ i, usedGet used i = true → usedGet used' i = true := by
  intro fuel
  induction fuel with
  | zero =>
    intro h used db h' used' db' heq i hi
    have h2 := Except.ok.inj heq
    injection h2 with ha hb
    injection hb with hc hd
    rw [← hc]
    exact hi
  | succ f ih =>
    intro h used db h' used' db' heq i hi
    simp only [scanLoop] at heq
    split at heq
    · cases hp : scanPassGo env ch leaves tree (h + env.gapLimit + 1) 0 used db with
      | error e => rw [hp] at heq; exact Except.noConfusion heq
      | ok q =>
        rw [hp] at heq
        have heq' : scanLoop env ch leaves tree f (lastTrue q.1) q.1 q.2 =
            .ok (h', used', db') := heq
        exact ih _ _ _ _ _ _ heq' i
          (scanPassGo_preserves env ch leaves tree _ _ _ _ _ _ (by rw [hp]) i hi)
    · have h2 := Except.ok.inj heq
      injection h2 with ha hb
      injection hb with hc hd
      rw [← hc]
      exact hi

/-- A pass across only matchless indices extends the all-false flags and
leaves the store untouched. -/
theorem scanPassGo_all_false (env : ScanEnv) (ch : Bool)
    (leaves : List (Option CommitmentE)) (tree : Nat) :
    ∀ (rem idx : Nat) (db : DBe),
      (∀ i, idx ≤ i → i < idx + rem → foundAt env ch leaves tree i = some false) →
      scanPassGo env ch leaves tree rem idx (List.replicate idx false) db =
        .ok (List.replicate (idx + rem) false, db) := by
  intro rem
  induction rem with
  | zero => intro idx db hf; simp [scanPassGo]
  | succ r ih =>
    intro idx db hf
    simp only [scanPassGo]
    rw [if_neg (by simp [usedGet_replicate_false])]
    rw [scanIndex_of_foundAt_false env idx ch leaves tree db (hf idx le_rfl (by omega))]
    show scanPassGo env ch leaves tree r (idx + 1)
      (usedSet (List.replicate idx false) idx false) db = _
    rw [usedSet_replicate_false]
    rw [show idx + (r + 1) = (idx + 1) + r from by omega]
    exact ih (idx + 1) db (fun i h1 h2 => hf i (by omega) (by omega))

/-- A two-leaf batch whose first note matches primary index 2 and whose
second matches primary index 6 (one past the initial inclusive window). -/
def leavesLift : List (Option CommitmentE) :=
  [some (.generated 41 { pubkey := 2, random := 0, amount := 1, token := 9 }),
   some (.generated 42 { pubkey := 6, random := 0, amount := 1, token := 9 })]

/-- C7 (amended): one `scanLeaves` call scans exactly the inclusive window
[0, height + gapLimit] — any matching index up to and including
`initialHeight + gapLimit` is detected in one call; when every index in
that window is matchless (for instance when the only note matches index
`initialHeight + gapLimit + 1`), nothing is detected, the height resets to 0
and the sweep stops without the store changing; and a prior matching note
inside the window lifts the height so that a later pass reaches index
`initialHeight + gapLimit + 1` (shown on the concrete two-leaf batch
`leavesLift` with gap limit 5). -/
theorem gap_limit_boundary (env : ScanEnv) (ch : Bool) (tree h0 : Nat) (db : DBe)
    (hgap : 0 < env.gapLimit) (hfuel : 1 ≤ env.fuel) :
    (∀ leaves i hres used' db', i ≤ h0 + env.gapLimit →
      foundAt env ch leaves tree i = some true →
      Wallet.scanLeaves env leaves ch h0 tree db = .ok (hres, used', db') →
      usedGet used' i = true) ∧
    (∀ leaves, (∀ i, i ≤ h0 + env.gapLimit → foundAt env ch leaves tree i = some false) →
      Wallet.scanLeaves env leaves ch h0 tree db =
        .ok (0, List.replicate (h0 + env.gapLimit + 1) false, db)) ∧
    (Wallet.scanLeaves scanEnvC8 leavesLift false 0 0 []).map
      (fun r => (r.1, usedGet r.2.1 6)) = .ok (6, true) := by
  refine ⟨?_, ?_, rfl⟩
  · intro leaves i hres used' db' hle hfound hscan
    unfold Wallet.scanLeaves at hscan
    obtain ⟨f, hf⟩ : ∃ f, env.fuel = f + 1 := ⟨env.fuel - 1, by omega⟩
    rw [hf] at hscan
    simp only [scanLoop] at hscan
    rw [if_pos (by simp only [List.length_nil]; omega)] at hscan
    cases hp : scanPassGo env ch leaves tree (h0 + env.gapLimit + 1) 0 [] db with
    | error e => rw [hp] at hscan; exact Except.noConfusion hscan
    | ok q =>
      rw [hp] at hscan
      have hscan' : scanLoop env ch leaves tree f (lastTrue q.1) q.1 q.2 =
          .ok (hres, used', db') := hscan
      have hset := scanPassGo_sets env ch leaves tree (h0 + env.gapLimit + 1) 0 [] db
        q.1 q.2 (by rw [hp]) i (by omega) (by omega) hfound
      exact scanLoop_preserves env ch leaves tree f (lastTrue q.1) q.1 q.2
        hres used' db' hscan' i hset
  · intro leaves hmatch
    unfold Wallet.scanLeaves
    obtain ⟨f, hf⟩ : ∃ f, env.fuel = f + 1 := ⟨env.fuel - 1, by omega⟩
    rw [hf]
    simp only [scanLoop]
    rw [if_pos (by simp only [List.length_nil]; omega)]
    have hpass := scanPassGo_all_false env ch leaves tree (h0 + env.gapLimit + 1) 0 db
      (fun i h1 h2 => hmatch i (by omega))
    rw [show (0 : Nat) + (h0 + env.gapLimit + 1) = h0 + env.gapLimit + 1 from by omega]
      at hpass
    rw [show ([] : List Bool) = List.replicate 0 false from rfl, hpass]
    show scanLoop env ch leaves tree f
      (lastTrue (List.replicate (h0 + env.gapLimit + 1) false))
      (List.replicate (h0 + env.gapLimit + 1) false) db = _
    rw [lastTrue_replicate_false]
    cases f with
    | zero => rfl
    | succ g =>
      simp only [scanLoop]
      rw [if_neg (by simp only [List.length_replicate]; omega)]

/-- A single cleartext note matching primary derivation index 5 — exactly
`initialHeight + gapLimit` for a fresh wallet with gap limit 5. -/
def leavesC7 : List (Option CommitmentE) :=
  [some (.generated 31 { pubkey := 5, random := 0, amount := 1, token := 9 })]

/-- Counterexample to C7 as stated: the sweep's `for` loop uses `<=`, so one
`scanLeaves` call covers the closed range [0, height + gapLimit]; the note at
derivation index `initialHeight + gapLimit` (= 5) IS detected in one call —
the match flag at index 5 is set, the height rises to 5 and a TXO record is
written — contradicting the claimed half-open window [0, height + gapLimit).
-/
theorem gap_limit_cex :
    (Wallet.scanLeaves scanEnvC8 leavesC7 false 0 0 []).map
      (fun r => (r.1, usedGet r.2.1 5, r.2.2.length)) = .ok (5, true, 1) := rfl

/-- The run of the boundary scenario used to witness `gap_limit_boundary`. -/
def resBoundary : Nat × List Bool × DBe :=
  (Wallet.scanLeaves scanEnvC8 leavesC7 false 0 0 []).toOption.getD default

/-- Witness for C7 (amended): on the concrete boundary scenario (gap limit 5,
initial height 0, note matching index 5) the detection conclusion holds. -/
theorem gap_limit_boundary_witness :
    usedGet resBoundary.2.1 5 = true :=
  (gap_limit_boundary scanEnvC8 false 0 0 [] (by decide) (by decide)).1
    leavesC7 5 resBoundary.1 resBoundary.2.1 resBoundary.2.2 (by decide) rfl rfl
